import Mathlib

/-!
Verification of the notebook helper module `notebooks/data_tools.py` of the
repository `lcmap-science`.  The Python functions are shallowly embedded as
Lean definitions:

* a pandas data frame is a list of rows, a row being a total function from
  column names to integer values (dates are represented by their proleptic
  Gregorian ordinal, as produced by `datetime.toordinal`, and qa codes by
  the integers themselves); the integer row index of a frame is positional,
  so `reset_index(drop=True)` is the identity on this representation;
* numpy arrays of floats are lists of rationals, so that means and
  population variances are exact;
* fallible calls (`ValueError`, `KeyError`, `IndexError`) return
  `Except String`;
* the 100 by 100 numpy grids of `assemble` are functions
  `Fin 100 → Fin 100 → ℤ`, and numpy index semantics (negative indices are
  end-relative, indices outside `[-100, 99]` raise `IndexError`) are made
  explicit by `pyIdx`.
-/

namespace DataTools

/-- Truncating division of an integer by a positive count, `int(a / b)` in
Python: the true quotient is truncated toward zero. -/
def pyTruncDiv (a : ℤ) (b : ℕ) : ℤ :=
  if 0 ≤ a then ((a.toNat / b : ℕ) : ℤ) else -(((-a).toNat / b : ℕ) : ℤ)

/-! ### Rows and tables -/

/-- A data-frame row: a total assignment of integer values to column names.
Dates are stored as their `toordinal` day count. -/
abbrev Row : Type := String → ℤ

/-- A data frame: an ordered list of rows with positional integer index. -/
abbrev Table : Type := List Row

/-- Model of `DataFrame.reset_index(drop=True)`.  The embedding indexes rows
positionally, so dropping the old index and renumbering is the identity. -/
def reset_index (df : Table) : Table := df

/-! ### `stats` -/

/-- Result record of `stats`: an ordered dict with keys min, max, mean, std.
The std entry is represented by its square `stdSq` so that the development
stays inside `ℚ`; `numpy.std` returns the nonnegative square root of exactly
this value (population variance, `ddof = 0`). -/
structure StatsRecord where
  min : Option ℚ
  max : Option ℚ
  mean : Option ℚ
  stdSq : Option ℚ
  deriving DecidableEq, Repr

/-- Model of `numpy.ndarray.mean`: the arithmetic mean, sum divided by
length.  On the empty list this is `0 / 0 = 0` in `ℚ`; numpy instead
returns nan with a warning, but `stats` never exposes that value because
`arr.max()` raises first (see `stats`). -/
def npMean (l : List ℚ) : ℚ := l.sum / l.length

/-- Model of `numpy.ndarray.max` on a nonempty array: the greatest element.
On the empty array the Python call raises `ValueError`; that is handled at
the call site in `stats`, so here the nonempty fold is paired with a dummy
head for the empty case. -/
def npMax (l : List ℚ) : ℚ :=
  match l with
  | [] => 0
  | a :: t => t.foldl max a

/-- Square of `numpy.ndarray.std` with the default `ddof = 0`: the
population variance, the mean of the squared deviations from the mean. -/
def npVarPop (l : List ℚ) : ℚ :=
  ((l.map (fun x => (x - npMean l) ^ 2)).sum) / l.length

/-- Embedding of `stats(arr)` from `data_tools.py`.  The source builds
`OrderedDict([(min, arr.mean()), (max, arr.max()), (mean, arr.mean()),
(std, arr.std())])` inside a `try`, and `except ValueError` returns the
all-None dict.  The only `ValueError` in sight is the one `arr.max()`
raises on a zero-size array, so the fallback branch is taken exactly when
the array is empty.  Note that the source really computes the min entry
with `arr.mean()`. -/
def stats (arr : List ℚ) : StatsRecord :=
  if arr = [] then
    { min := none, max := none, mean := none, stdSq := none }
  else
    { min := some (npMean arr)
      max := some (npMax arr)
      mean := some (npMean arr)
      stdSq := some (npVarPop arr) }

/-! ### `dates` and `mask` -/

/-- Embedding of `dates(df, params, field)`: keep the rows whose field value
lies inclusively between the two params, in original order, reindexed.  The
source expression is `df[(df[field] >= _min) & (df[field] <= _max)]`
followed by `reset_index(drop=True)`. -/
def dates (df : Table) (params : ℤ × ℤ) (field : String := "dates") : Table :=
  reset_index (df.filter (fun r => decide (params.1 ≤ r field) && decide (r field ≤ params.2)))

/-- The module-level default tuple of disallowed qa codes. -/
def mask_values : List ℤ :=
  [1, 96, 112, 160, 176, 224, 352, 368, 416, 432, 480, 864, 880, 928, 944, 992]

/-- Embedding of `mask(df, vals, mask_field)`: keep the rows whose mask
field value is not a member of `vals`, in original order, reindexed.  The
source expression is `df[~df[mask_field].isin(np.array(vals))]` followed by
`reset_index(drop=True)`; `isin` tests exact membership. -/
def mask (df : Table) (vals : List ℤ := mask_values) (mask_field : String := "qa") : Table :=
  reset_index (df.filter (fun r => !(decide (r mask_field ∈ vals))))

/-! ### `sort_values`, `sort_on`, `temporal`

The pandas signature is `DataFrame.sort_values(by, axis=0, ascending=True,
inplace=False, kind=quicksort, ...)`: the second positional parameter is
`axis`, not `ascending`.  The source calls `df.sort_values(field, ascending)`,
so the boolean meant as the sort direction arrives in the `axis` slot.  A
boolean axis is coerced by Python equality (`True == 1`, `False == 0`), so
`True` selects axis 1, which sorts the columns by the row labelled `field`;
on a frame with the usual positional integer index there is no such row
label and the call raises a `KeyError` (pandas releases of the 0.2x era even
reject the boolean axis outright with `ValueError: No axis named True`; the
call fails either way).  `False` selects axis 0 and the actual `ascending`
parameter keeps its default `True`, so the rows are sorted in ascending
order regardless of the flag the caller passed. -/

/-- Row comparison used by the model of `sort_values`: compare the values of
the given field, in the requested direction. -/
def keyLe (field : String) (ascending : Bool) (a b : Row) : Bool :=
  if ascending then decide (a field ≤ b field) else decide (b field ≤ a field)

/-- Stable insertion of a row into an already sorted list: the row goes in
front of the first element it compares less-or-equal to, so equal keys keep
their original relative order. -/
def insertRow (le : Row → Row → Bool) (r : Row) : List Row → List Row
  | [] => [r]
  | a :: l => if le r a then r :: a :: l else a :: insertRow le r l

/-- Stable sort of the rows with respect to `le` (insertion sort). -/
def sortRows (le : Row → Row → Bool) : List Row → List Row
  | [] => []
  | a :: l => insertRow le a (sortRows le l)

/-- Model of `DataFrame.sort_values(by, axis, ascending)` on a frame with a
positional integer index.  Axis 1 fails as described above; axis 0 stably
sorts the rows by the values of column `by` in the direction given by
`ascending`. -/
def sort_values (df : Table) (by_ : String) (axis : Bool := false)
    (ascending : Bool := true) : Except String Table :=
  if axis then Except.error "KeyError"
  else Except.ok (sortRows (keyLe by_ ascending) df)

/-- Embedding of `sort_on(df, field, ascending=True)`.  The source returns
`df.sort_values(field, ascending).reset_index(drop=True)`: the `ascending`
argument is passed positionally into the `axis` parameter of `sort_values`,
whose own `ascending` parameter keeps its default value `true`. -/
def sort_on (df : Table) (field : String) (ascending : Bool := true) : Except String Table :=
  (sort_values df field ascending).map reset_index

/-- Embedding of `temporal(df, ascending=True, field=dates)`: its body is
identical to the body of `sort_on`. -/
def temporal (df : Table) (ascending : Bool := true) (field : String := "dates") :
    Except String Table :=
  (sort_values df field ascending).map reset_index

/-! ### Calendar dates, `years`, `date_range`, `seasons` -/

/-- A calendar date as carried in the dates column before conversion to an
ordinal: year, month, day of month. -/
structure Date where
  year : ℕ
  month : ℕ
  day : ℕ
  deriving DecidableEq, Repr

/-- Gregorian leap-year test, as in the Python datetime module. -/
def isLeap (y : ℕ) : Bool := (y % 4 = 0 && y % 100 != 0) || y % 400 = 0

/-- Number of days in a month of a given year (months are 1 to 12). -/
def daysInMonth (y m : ℕ) : ℕ :=
  if m = 2 then (if isLeap y then 29 else 28)
  else if m = 4 || m = 6 || m = 9 || m = 11 then 30
  else 31

/-- Number of days in the months of year `y` strictly before month `m`. -/
def daysBeforeMonth (y m : ℕ) : ℕ :=
  ((List.range (m - 1)).map (fun i => daysInMonth y (i + 1))).sum

/-- Number of days in the years strictly before year `y` of the proleptic
Gregorian calendar. -/
def daysBeforeYear (y : ℕ) : ℕ :=
  365 * (y - 1) + (y - 1) / 4 - (y - 1) / 100 + (y - 1) / 400

/-- The proleptic Gregorian ordinal of a date, as `datetime.toordinal`:
day 1 is January 1 of year 1. -/
def toOrdinal (y m d : ℕ) : ℕ := daysBeforeYear y + daysBeforeMonth y m + d

/-- Validity of the constructor arguments of `datetime.datetime`: the year
in `[1, 9999]`, the month in `[1, 12]`, the day within the month. -/
def validDate (y m d : ℕ) : Bool :=
  1 ≤ y && y ≤ 9999 && 1 ≤ m && m ≤ 12 && 1 ≤ d && d ≤ daysInMonth y m

/-- Model of `dt.datetime(y, m, d)` at day resolution: the ordinal of the
date when the arguments are valid, a `ValueError` otherwise. -/
def datetime (y m d : ℕ) : Except String ℕ :=
  if validDate y m d then Except.ok (toOrdinal y m d)
  else Except.error "ValueError: invalid datetime arguments"

/-- Helper for `uniqueFirst`: keep the elements not seen before, tracking
the already seen ones in an accumulator. -/
def uniqueFirstAux (seen : List ℕ) : List ℕ → List ℕ
  | [] => []
  | a :: l => if a ∈ seen then uniqueFirstAux seen l else a :: uniqueFirstAux (a :: seen) l

/-- Unique values of a list in order of first appearance, the semantics of
`pandas.Series.unique`. -/
def uniqueFirst (l : List ℕ) : List ℕ := uniqueFirstAux [] l

/-- Embedding of `years(df)`: the distinct calendar years appearing in the
dates column, in order of first appearance.  For this function the frame is
represented by its dates column as a list of calendar dates. -/
def years (df : List Date) : List ℕ := uniqueFirst (df.map Date.year)

/-- The daily run of ordinals from `a` to `b` inclusive; empty when `b` is
before `a`. -/
def dailyRange (a b : ℕ) : List ℕ := (List.range (b + 1 - a)).map (a + ·)

/-- Embedding of `date_range(params)`, a direct wrapper of
`pandas.date_range`, at the call shape `seasons` uses: `start` and `end`
are always supplied (here already as ordinals) and `freq` is always a
concrete frequency string (default "D").  pandas requires exactly three of
the four parameters start, end, periods, freq, so whenever `periods` is
also given the call raises `ValueError`; with `periods=None` and the daily
frequency it returns every day from start to end inclusive (empty when
start is after end).  Frequencies other than "D" are outside the model and
mapped to an error; no theorem below depends on that branch. -/
def date_range (start stop : ℕ) (periods : Option ℕ) (freq : String) :
    Except String (List ℕ) :=
  match periods with
  | some _ =>
      Except.error "ValueError: Of the four parameters: start, end, periods, and freq, exactly three must be specified"
  | none =>
      if freq = "D" then Except.ok (dailyRange start stop)
      else Except.error "frequency not modelled"

/-- One entry of the dict comprehension inside `seasons`: build the start
and end datetimes of year `y` and run `date_range` between them.  The
`dt.datetime` constructors run before `pd.date_range`, and any exception
propagates. -/
def seasonOfYear (start_mon start_day end_mon end_day : ℕ) (periods : Option ℕ)
    (freq : String) (y : ℕ) : Except String (ℕ × List ℕ) := do
  let s ← datetime y start_mon start_day
  let e ← datetime y end_mon end_day
  let r ← date_range s e periods freq
  pure (y, r)

/-- Embedding of `seasons(df, start_mon, start_day, end_mon, end_day,
periods=None, freq=D)`: an ordered dict, here an association list, mapping
every year of the frame to the `date_range` between that year's start and
end dates. -/
def seasons (df : List Date) (start_mon start_day end_mon end_day : ℕ)
    (periods : Option ℕ := none) (freq : String := "D") :
    Except String (List (ℕ × List ℕ)) :=
  (years df).mapM (seasonOfYear start_mon start_day end_mon end_day periods freq)

/-! ### `assemble` -/

/-- A time-series record as consumed by `assemble`: the nested tuple
`((chip_x, chip_y, pixel_x, pixel_y), values)` where `values` maps a band
name to its list of values over time.  Reading the source, `t[0][0]` and
`t[0][1]` are the chip origin and `t[0][2]` and `t[0][3]` the pixel
coordinate. -/
structure TSRecord where
  chip_x : ℤ
  chip_y : ℤ
  x : ℤ
  y : ℤ
  vals : String → List ℤ

/-- The per-band grids built by `assemble`, one 100 by 100 integer array per
band name.  The Python dict holds exactly the requested bands; the model is
a total function whose unwritten entries stay at the zero grid. -/
abbrev Grids : Type := String → Fin 100 → Fin 100 → ℤ

/-- Numpy index resolution on an axis of length 100: indices 0 to 99 address
the cells directly, negative indices from -100 to -1 address them from the
end, and anything else raises `IndexError` (`none`). -/
def pyIdx (i : ℤ) : Option (Fin 100) :=
  if h : 0 ≤ i ∧ i < 100 then some ⟨i.toNat, by omega⟩
  else if h2 : -100 ≤ i ∧ i < 0 then some ⟨(i + 100).toNat, by omega⟩
  else none

/-- In-place write `out[b][r][c] = v` on the band dict, functionally. -/
def updGrids (out : Grids) (b : String) (r c : Fin 100) (v : ℤ) : Grids :=
  fun b0 => if b0 = b then (fun i j => if i = r ∧ j = c then v else out b0 i j) else out b0

/-- The column the source computes for a record,
`int((coord_x - chip_coord_x) / 30)`: true division then truncation toward
zero. -/
def colOf (t : TSRecord) : ℤ := pyTruncDiv (t.x - t.chip_x) 30

/-- The row the source computes for a record,
`int((chip_coord_y - coord_y) / 30)`. -/
def rowOf (t : TSRecord) : ℤ := pyTruncDiv (t.chip_y - t.y) 30

/-- One iteration of the inner band loop of `assemble`:
`out[b][row][col] = t[1][b][ind]`.  The right-hand side is evaluated first
and raises `IndexError` when `ind` is out of range for the band; then the
assignment itself resolves both grid indices, raising `IndexError` when one
lies outside `[-100, 99]`. -/
def procBand (vals : String → List ℤ) (ind : ℕ) (row col : ℤ) (out : Grids)
    (b : String) : Except String Grids :=
  match (vals b)[ind]? with
  | none => Except.error "IndexError: band value index out of range"
  | some v =>
    match pyIdx row, pyIdx col with
    | some r, some c => Except.ok (updGrids out b r c v)
    | _, _ => Except.error "IndexError: grid index out of bounds"

/-- One iteration of the outer loop of `assemble`: compute the column and
row of the record, then run the band loop. -/
def procRecord (ind : ℕ) (bands : List String) (out : Grids) (t : TSRecord) :
    Except String Grids :=
  bands.foldlM (procBand t.vals ind (rowOf t) (colOf t)) out

/-- Embedding of `assemble(timeseries, ind, bands)`: allocate a zero grid
per band, then for each record write the value of each band at time `ind`
into the cell addressed by the row and column computed from the chip and
pixel coordinates of the record.  Later records overwrite earlier ones. -/
def assemble (timeseries : List TSRecord) (ind : ℕ) (bands : List String) :
    Except String Grids :=
  timeseries.foldlM (procRecord ind bands) (fun _ _ _ => 0)

/-- Cell lookup on the result of `assemble`, for stating concrete facts:
the value of band `b` at row `i`, column `j`, or `-1` when the call
errored. -/
def cellOf (e : Except String Grids) (b : String) (i j : Fin 100) : ℤ :=
  match e with
  | Except.ok g => g b i j
  | Except.error _ => -1

/-! ### `nearest_date` -/

/-- First-occurrence argmin of a list of integers, together with the
minimum itself: the semantics of `numpy.argmin`, which returns the lowest
index attaining the minimum.  Returns `none` on the empty list, where numpy
raises `ValueError`. -/
def argminPair : List ℤ → Option (ℕ × ℤ)
  | [] => none
  | a :: l =>
    match argminPair l with
    | none => some (0, a)
    | some (j, m) => if a ≤ m then some (0, a) else some (j + 1, m)

/-- Embedding of `nearest_date(array, date)`: convert the target date tuple
to its ordinal with `dt.datetime(*date).toordinal()`, then return
`np.abs(array - date).argmin()`, the first index of the array entry with
minimal absolute difference to the target ordinal. -/
def nearest_date (array : List ℤ) (date : ℕ × ℕ × ℕ) : Except String ℕ := do
  let d ← datetime date.1 date.2.1 date.2.2
  match argminPair (array.map (fun a => |a - (d : ℤ)|)) with
  | none => Except.error "ValueError: argmin of an empty sequence"
  | some p => Except.ok p.1

/-! ### Claims about `stats` -/

/-- C1: for every non-empty numeric array `a`, `stats a` returns a record
with keys min, max, mean, std in which the mean entry is the arithmetic
mean of `a`, the max entry is the maximum of `a`, the std entry is the
population standard deviation of `a` (stated on its square, the population
variance), and the min entry equals the mean entry; in particular
`stats [2, 4, 6]` has mean 4, max 6, and a min entry mirroring the mean. -/
theorem stats_nonempty_spec :
    (∀ a : List ℚ, a ≠ [] →
      (stats a).mean = some (npMean a) ∧
      (stats a).max = some (npMax a) ∧
      (stats a).stdSq = some (npVarPop a) ∧
      (stats a).min = (stats a).mean) ∧
    ((stats [2, 4, 6]).mean = some 4 ∧
      (stats [2, 4, 6]).max = some 6 ∧
      (stats [2, 4, 6]).min = (stats [2, 4, 6]).mean) := by
  have h : ([2, 4, 6] : List ℚ) ≠ [] := by decide
  constructor
  · intro a ha
    simp [stats, ha]
  · refine ⟨by norm_num [stats, h, npMean], by norm_num [stats, h, npMax],
      by norm_num [stats, h]⟩

/-- Witness for C1: the hypotheses of `stats_nonempty_spec` hold at the
concrete array `[2, 4, 6]` and the conclusion follows there. -/
theorem stats_nonempty_spec_witness :
    (([2, 4, 6] : List ℚ) ≠ []) ∧
    ((stats [2, 4, 6]).mean = some (npMean [2, 4, 6]) ∧
      (stats [2, 4, 6]).max = some (npMax [2, 4, 6]) ∧
      (stats [2, 4, 6]).stdSq = some (npVarPop [2, 4, 6]) ∧
      (stats [2, 4, 6]).min = (stats [2, 4, 6]).mean) :=
  ⟨by decide, stats_nonempty_spec.1 [2, 4, 6] (by decide)⟩

/-- C5: on the empty array, `stats` returns the record with all four fields
None; the `ValueError` of the underlying computation is caught and
converted instead of propagating (the return type of the embedding carries
no error case at all). -/
theorem stats_empty_all_none :
    stats [] = { min := none, max := none, mean := none, stdSq := none } := rfl

/-! ### Claims about `dates` and `mask` -/

/-- C6: `dates df (a, b) field` returns exactly the rows whose field value
`v` satisfies `a ≤ v ≤ b`, inclusive on both ends, keeping the original
relative order (the result is a sublist of the input), and its row count is
at most the row count of the input. -/
theorem dates_filter_spec (df : Table) (a b : ℤ) (field : String) :
    (dates df (a, b) field).Sublist df ∧
    (∀ r ∈ dates df (a, b) field, a ≤ r field ∧ r field ≤ b) ∧
    (∀ r ∈ df, a ≤ r field → r field ≤ b → r ∈ dates df (a, b) field) ∧
    (dates df (a, b) field).length ≤ df.length := by
  refine ⟨List.filter_sublist df, ?_, ?_, List.length_filter_le _ df⟩
  · intro r hr
    have h := (List.mem_filter.mp hr).2
    simpa using h
  · intro r hr h1 h2
    exact List.mem_filter.mpr ⟨hr, by simp [h1, h2]⟩

/-- Fixed example rows for witnesses: every field of `rowA` is 3 and every
field of `rowB` is 9. -/
def rowA : Row := fun _ => 3

/-- Companion example row, see `rowA`. -/
def rowB : Row := fun _ => 9

/-- Witness for C6: on the concrete two-row table `[rowA, rowB]` with the
window `(2, 5)`, the row with date 3 is kept and the row count does not
grow. -/
theorem dates_filter_spec_witness :
    rowA ∈ dates [rowA, rowB] (2, 5) "dates" ∧
    (dates [rowA, rowB] (2, 5) "dates").length ≤ ([rowA, rowB] : Table).length :=
  ⟨(dates_filter_spec [rowA, rowB] 2 5 "dates").2.2.1 rowA (List.mem_cons_self rowA [rowB])
      (by norm_num [rowA]) (by norm_num [rowA]),
    (dates_filter_spec [rowA, rowB] 2 5 "dates").2.2.2⟩

/-- C7: `mask df vals mask_field` returns exactly the rows whose mask-field
value is not a member of `vals` (membership by exact equality on `ℤ`), in
their original relative order (a sublist of the input, reindexed by the
positional representation), and the default disallowed list holds the 16
specific qa codes. -/
theorem mask_filter_spec :
    (∀ (df : Table) (vals : List ℤ) (mf : String),
      (mask df vals mf).Sublist df ∧
      (∀ r ∈ mask df vals mf, r mf ∉ vals) ∧
      (∀ r ∈ df, r mf ∉ vals → r ∈ mask df vals mf)) ∧
    mask_values.length = 16 := by
  refine ⟨fun df vals mf => ⟨List.filter_sublist df, ?_, ?_⟩, by decide⟩
  · intro r hr
    have h := (List.mem_filter.mp hr).2
    simpa using h
  · intro r hr h1
    exact List.mem_filter.mpr ⟨hr, by simpa using h1⟩

/-- Witness for C7: on the one-row table `[rowA]` with disallowed list
`[9]`, the row with qa value 3 survives the mask. -/
theorem mask_filter_spec_witness : rowA ∈ mask [rowA] [9] "qa" :=
  (mask_filter_spec.1 [rowA] [9] "qa").2.2 rowA (List.mem_cons_self rowA []) (by decide)

/-- C8: `mask` is idempotent: masking an already masked table with the same
disallowed list and field changes nothing. -/
theorem mask_idempotent (df : Table) (vals : List ℤ) (mf : String) :
    mask (mask df vals mf) vals mf = mask df vals mf := by
  simp [mask, reset_index, List.filter_filter]

/-! ### Claims about `assemble` on the origin record -/

/-- C2 counterexample: for the single record with chip origin (0, 0), pixel
coordinate (0, 0), band set containing B1, index 0 and band value 42, the
returned grid holds 0 at `grid[99][0]`, not 42 as claimed: the row formula
`int((chip_y - pixel_y) / 30)` gives row 0, not row 99. -/
theorem assemble_origin_counterexample :
    cellOf (assemble [⟨0, 0, 0, 0, fun _ => [42]⟩] 0 ["B1"]) "B1" 99 0 = 0 ∧
    (0 : ℤ) ≠ 42 := by
  exact ⟨rfl, by decide⟩

/-- C2 amended: for the single record with chip origin (0, 0), pixel
coordinate (0, 0), band set containing B1, index 0 and band value 42, the
call succeeds and the returned grid for band B1 holds 42 at `grid[0][0]`
and 0 in every other cell. -/
theorem assemble_origin_spec :
    (assemble [⟨0, 0, 0, 0, fun _ => [42]⟩] 0 ["B1"]).isOk = true ∧
    ∀ i j : Fin 100,
      cellOf (assemble [⟨0, 0, 0, 0, fun _ => [42]⟩] 0 ["B1"]) "B1" i j =
        if i.val = 0 ∧ j.val = 0 then 42 else 0 := by
  constructor
  · rfl
  · set_option maxRecDepth 10000 in decide

/-! ### Claim about `sort_on` and `temporal` -/

/-- Fixed example rows for the sorting divergence: the dates value of
`rowD5` is 5 and the dates value of `rowD3` is 3. -/
def rowD5 : Row := fun s => if s = "dates" then 5 else 0

/-- Companion example row, see `rowD5`. -/
def rowD3 : Row := fun s => if s = "dates" then 3 else 0

/-- C3 evaluation at the failing input: the source passes `ascending`
positionally into the `axis` parameter of `sort_values`.  On the two-row
table `[rowD5, rowD3]`, calling `sort_on` with `ascending = false` returns
the rows sorted in ASCENDING date order `[3, 5]` (the claim requires
descending), and calling it with `ascending = true` fails outright instead
of sorting; `temporal` with the default field runs the identical code. -/
theorem sort_on_ascending_is_axis :
    (match sort_on [rowD5, rowD3] "dates" false with
      | Except.ok t => t.map (fun r => r "dates")
      | Except.error _ => []) = [3, 5] ∧
    sort_on [rowD5, rowD3] "dates" true = Except.error "KeyError" ∧
    temporal [rowD5, rowD3] false = sort_on [rowD5, rowD3] "dates" false := by
  exact ⟨rfl, rfl, rfl⟩

/-! ### Claims about `seasons` -/

/-- The daily range is strictly increasing. -/
lemma dailyRange_pairwise (a b : ℕ) : List.Pairwise (· < ·) (dailyRange a b) := by
  unfold dailyRange
  exact (List.pairwise_lt_range (b + 1 - a)).map _ (fun x y h => by omega)

/-- Every entry of the daily range lies between its endpoints. -/
lemma dailyRange_mem_bounds (a b : ℕ) : ∀ x ∈ dailyRange a b, a ≤ x ∧ x ≤ b := by
  intro x hx
  unfold dailyRange at hx
  obtain ⟨i, hi, rfl⟩ := List.mem_map.mp hx
  have := List.mem_range.mp hi
  omega

/-- When the endpoints are ordered, both belong to the daily range. -/
lemma dailyRange_ends (a b : ℕ) (h : a ≤ b) : a ∈ dailyRange a b ∧ b ∈ dailyRange a b := by
  unfold dailyRange
  constructor
  · exact List.mem_map.mpr ⟨0, List.mem_range.mpr (by omega), by omega⟩
  · exact List.mem_map.mpr ⟨b - a, List.mem_range.mpr (by omega), by omega⟩

/-- With `periods = None` and valid season boundaries, the comprehension
of `seasons` succeeds and produces one daily range per year. -/
lemma seasons_mapM_ok (sm sd em ed : ℕ) (ys : List ℕ)
    (h : ∀ y ∈ ys, validDate y sm sd = true ∧ validDate y em ed = true) :
    ys.mapM (seasonOfYear sm sd em ed none "D") =
      Except.ok (ys.map (fun y => (y, dailyRange (toOrdinal y sm sd) (toOrdinal y em ed)))) := by
  induction ys with
  | nil => rfl
  | cons a l ih =>
    have ha := h a (List.mem_cons_self a l)
    rw [List.mapM_cons, ih (fun y hy => h y (List.mem_cons_of_mem a hy))]
    simp [seasonOfYear, datetime, ha.1, ha.2, date_range]
    rfl

/-- With a periods count supplied (on top of start, end and the always
present frequency string), the entry of any year is an error. -/
lemma seasonOfYear_periods_error (sm sd em ed p : ℕ) (freq : String) (y : ℕ) :
    ∃ e, seasonOfYear sm sd em ed (some p) freq y = Except.error e := by
  unfold seasonOfYear datetime date_range
  by_cases h1 : validDate y sm sd = true <;> by_cases h2 : validDate y em ed = true <;>
    simp [h1, h2] <;> exact ⟨_, rfl⟩

/-- On a nonempty frame, `seasons` with a periods count fails. -/
lemma seasons_periods_not_ok (df : List Date) (sm sd em ed p : ℕ) (freq : String)
    (hdf : df ≠ []) : (seasons df sm sd em ed (some p) freq).isOk = false := by
  obtain ⟨d, t, rfl⟩ : ∃ d t, df = d :: t := by
    cases df with
    | nil => exact absurd rfl hdf
    | cons d t => exact ⟨d, t, rfl⟩
  have hy : years (d :: t) = d.year :: uniqueFirstAux [d.year] (List.map Date.year t) := rfl
  obtain ⟨e, he⟩ := seasonOfYear_periods_error sm sd em ed p freq d.year
  rw [seasons, hy, List.mapM_cons, he]
  rfl

/-- C4 amended: for every table and valid season parameters with no periods
count, `seasons` maps each year present in the dates field, in order of
first appearance, to the chronologically ordered (strictly increasing)
sequence of dates running from (year, start_month, start_day) to
(year, end_month, end_day) inclusive; but when a periods count is supplied
together with the end date (the frequency argument being always present,
daily by default), the call FAILS with the ValueError of the underlying
date-range utility rather than preferring the end date. -/
theorem seasons_spec :
    (∀ (df : List Date) (sm sd em ed : ℕ),
      (∀ y ∈ years df, validDate y sm sd = true ∧ validDate y em ed = true) →
      ∃ m, seasons df sm sd em ed none "D" = Except.ok m ∧
        m.map Prod.fst = years df ∧
        ∀ q ∈ m, q.2 = dailyRange (toOrdinal q.1 sm sd) (toOrdinal q.1 em ed) ∧
          List.Pairwise (· < ·) q.2 ∧
          (∀ x ∈ q.2, toOrdinal q.1 sm sd ≤ x ∧ x ≤ toOrdinal q.1 em ed) ∧
          (toOrdinal q.1 sm sd ≤ toOrdinal q.1 em ed →
            toOrdinal q.1 sm sd ∈ q.2 ∧ toOrdinal q.1 em ed ∈ q.2)) ∧
    (∀ (df : List Date) (sm sd em ed p : ℕ) (freq : String), df ≠ [] →
      (seasons df sm sd em ed (some p) freq).isOk = false) := by
  constructor
  · intro df sm sd em ed h
    refine ⟨_, seasons_mapM_ok sm sd em ed (years df) h, by simp [Function.comp_def], ?_⟩
    intro q hq
    obtain ⟨y, hy, rfl⟩ := List.mem_map.mp hq
    exact ⟨rfl, dailyRange_pairwise _ _, dailyRange_mem_bounds _ _,
      fun hle => dailyRange_ends _ _ hle⟩
  · exact seasons_periods_not_ok

/-- Witness for C4: the hypotheses of `seasons_spec` hold at a concrete
two-year table with the season June 1 to June 5, and at a concrete
one-row table for the periods branch. -/
theorem seasons_spec_witness :
    (∀ y ∈ years [⟨2000, 3, 15⟩, ⟨2001, 7, 1⟩], validDate y 6 1 = true ∧ validDate y 6 5 = true) ∧
    (seasons [⟨2000, 3, 15⟩, ⟨2001, 7, 1⟩] 6 1 6 5 none "D").isOk = true ∧
    (([⟨2000, 1, 1⟩] : List Date) ≠ [] ∧
      (seasons [⟨2000, 1, 1⟩] 6 1 9 30 (some 5) "D").isOk = false) := by
  refine ⟨by decide, ?_, by decide,
    seasons_spec.2 [⟨2000, 1, 1⟩] 6 1 9 30 5 "D" (by decide)⟩
  obtain ⟨m, hm, -⟩ := seasons_spec.1 [⟨2000, 3, 15⟩, ⟨2001, 7, 1⟩] 6 1 6 5 (by decide)
  rw [hm]
  rfl

/-- C4 counterexample: with both an end date and a periods count supplied,
the call to `seasons` does not succeed: pandas `date_range` rejects having
all four of start, end, periods and freq, so the claimed end-date
preference does not exist. -/
theorem seasons_periods_counterexample :
    seasons [⟨2000, 1, 1⟩] 6 1 9 30 (some 5) "D" =
      Except.error
        "ValueError: Of the four parameters: start, end, periods, and freq, exactly three must be specified" := by
  rfl

/-! ### Claim about `nearest_date` -/

/-- The argmin is undefined exactly on the empty list. -/
lemma argminPair_eq_none (l : List ℤ) : argminPair l = none ↔ l = [] := by
  cases l with
  | nil => simp [argminPair]
  | cons a t =>
    simp only [argminPair]
    cases argminPair t with
    | none => simp
    | some p =>
      obtain ⟨j, m⟩ := p
      by_cases h : a ≤ m <;> simp [h]

/-- Characterization of `argminPair`: it returns an in-range index holding
the minimum, every element is at least the minimum, and every earlier
element is strictly greater (first-occurrence tie-breaking). -/
lemma argminPair_spec (l : List ℤ) : ∀ i m, argminPair l = some (i, m) →
    i < l.length ∧ l.getD i 0 = m ∧ (∀ j < l.length, m ≤ l.getD j 0) ∧
    (∀ j < i, m < l.getD j 0) := by
  induction l with
  | nil => intro i m h; simp [argminPair] at h
  | cons a t ih =>
    intro i m h
    simp only [argminPair] at h
    cases ht : argminPair t with
    | none =>
      rw [ht] at h
      have hte : t = [] := (argminPair_eq_none t).mp ht
      subst hte
      simp only [Option.some.injEq, Prod.mk.injEq] at h
      obtain ⟨rfl, rfl⟩ := h
      refine ⟨by simp, rfl, ?_, by omega⟩
      intro j hj
      cases j with
      | zero => simp
      | succ k => simp at hj
    | some p =>
      obtain ⟨j0, m0⟩ := p
      rw [ht] at h
      obtain ⟨hlen, hget, hmin, hfirst⟩ := ih j0 m0 ht
      dsimp only at h
      by_cases hle : a ≤ m0
      · rw [if_pos hle] at h
        simp only [Option.some.injEq, Prod.mk.injEq] at h
        obtain ⟨rfl, rfl⟩ := h
        refine ⟨by simp, rfl, ?_, by omega⟩
        intro j hj
        cases j with
        | zero => simp
        | succ k =>
          simp only [List.getD_cons_succ]
          exact le_trans hle (hmin k (by simpa using hj))
      · rw [if_neg hle] at h
        simp only [Option.some.injEq, Prod.mk.injEq] at h
        obtain ⟨rfl, rfl⟩ := h
        push_neg at hle
        refine ⟨by simpa using hlen, by simpa using hget, ?_, ?_⟩
        · intro j hj
          cases j with
          | zero => simpa using le_of_lt hle
          | succ k =>
            simp only [List.getD_cons_succ]
            exact hmin k (by simpa using hj)
        · intro j hj
          cases j with
          | zero => simpa using hle
          | succ k =>
            simp only [List.getD_cons_succ]
            exact hfirst k (by omega)

/-- Pointwise description of the mapped absolute-difference list. -/
lemma getD_map_absdiff (D : ℤ) (a : List ℤ) :
    ∀ j < a.length, (a.map (fun x => |x - D|)).getD j 0 = |a.getD j 0 - D| := by
  induction a with
  | nil => intro j hj; simp at hj
  | cons x t ih =>
    intro j hj
    cases j with
    | zero => simp
    | succ k => simpa using ih k (by simpa using hj)

/-- Reduction of `nearest_date` once the target date is valid. -/
lemma nearest_date_eq (array : List ℤ) (y m d : ℕ) (hv : validDate y m d = true) :
    nearest_date array (y, m, d) =
      match argminPair (array.map (fun v => |v - (toOrdinal y m d : ℤ)|)) with
      | none => Except.error "ValueError: argmin of an empty sequence"
      | some p => Except.ok p.1 := by
  unfold nearest_date datetime
  rw [if_pos hv]
  rfl

/-- C9: for every non-empty array of ordinal dates and every valid target
date, `nearest_date` returns the index of the entry with minimal absolute
difference to the ordinal of the target, and on ties the lowest such index;
in particular `nearest_date [1, 5, 10]` with the target of ordinal 6
returns 1. -/
theorem nearest_date_spec :
    (∀ (a : List ℤ) (y m d : ℕ), a ≠ [] → validDate y m d = true →
      ∃ i, nearest_date a (y, m, d) = Except.ok i ∧ i < a.length ∧
        (∀ j < a.length,
          |a.getD i 0 - (toOrdinal y m d : ℤ)| ≤ |a.getD j 0 - (toOrdinal y m d : ℤ)|) ∧
        (∀ j < i,
          |a.getD i 0 - (toOrdinal y m d : ℤ)| < |a.getD j 0 - (toOrdinal y m d : ℤ)|)) ∧
    nearest_date [1, 5, 10] (1, 1, 6) = Except.ok 1 := by
  constructor
  · intro a y m d ha hv
    cases hp : argminPair (a.map (fun v => |v - (toOrdinal y m d : ℤ)|)) with
    | none =>
      have : a.map (fun v => |v - (toOrdinal y m d : ℤ)|) = [] :=
        (argminPair_eq_none _).mp hp
      simp at this
      exact absurd this ha
    | some p =>
      obtain ⟨i, mv⟩ := p
      obtain ⟨hlen, hget, hmin, hfirst⟩ := argminPair_spec _ i mv hp
      have hlen2 : i < a.length := by simpa using hlen
      have hgi : |a.getD i 0 - (toOrdinal y m d : ℤ)| = mv := by
        rw [← getD_map_absdiff (toOrdinal y m d : ℤ) a i hlen2]
        exact hget
      refine ⟨i, ?_, hlen2, ?_, ?_⟩
      · rw [nearest_date_eq a y m d hv, hp]
      · intro j hj
        rw [hgi, ← getD_map_absdiff (toOrdinal y m d : ℤ) a j hj]
        exact hmin j (by simpa using hj)
      · intro j hj
        rw [hgi, ← getD_map_absdiff (toOrdinal y m d : ℤ) a j (lt_trans hj hlen2)]
        exact hfirst j hj
  · rfl

/-- Witness for C9: the hypotheses of `nearest_date_spec` hold at the
concrete array `[1, 5, 10]` and target date (1, 1, 6), whose ordinal is 6,
and the conclusion follows there. -/
theorem nearest_date_spec_witness :
    (([1, 5, 10] : List ℤ) ≠ []) ∧ validDate 1 1 6 = true ∧
    (∃ i, nearest_date [1, 5, 10] (1, 1, 6) = Except.ok i ∧ i < ([1, 5, 10] : List ℤ).length ∧
      (∀ j < ([1, 5, 10] : List ℤ).length,
        |([1, 5, 10] : List ℤ).getD i 0 - (toOrdinal 1 1 6 : ℤ)| ≤
          |([1, 5, 10] : List ℤ).getD j 0 - (toOrdinal 1 1 6 : ℤ)|) ∧
      (∀ j < i,
        |([1, 5, 10] : List ℤ).getD i 0 - (toOrdinal 1 1 6 : ℤ)| <
          |([1, 5, 10] : List ℤ).getD j 0 - (toOrdinal 1 1 6 : ℤ)|)) :=
  ⟨by decide, by decide, nearest_date_spec.1 [1, 5, 10] 1 1 6 (by decide) (by decide)⟩

/-! ### Claim about the coordinate handling of `assemble` -/

/-- Offsets in `[0, 2970]` truncate to a quotient in `[0, 99]`. -/
lemma pyTruncDiv_nonneg_bounds (x : ℤ) (h0 : 0 ≤ x) (h1 : x ≤ 2970) :
    0 ≤ pyTruncDiv x 30 ∧ pyTruncDiv x 30 ≤ 99 := by
  simp only [pyTruncDiv, if_pos h0]
  omega

/-- Offsets in `(-3001, -30]` truncate toward zero to a quotient in
`[-100, -1]`, a negative grid index. -/
lemma pyTruncDiv_neg_bounds (x : ℤ) (h0 : -3001 < x) (h1 : x ≤ -30) :
    -100 ≤ pyTruncDiv x 30 ∧ pyTruncDiv x 30 ≤ -1 := by
  have hx : ¬(0 ≤ x) := by omega
  simp only [pyTruncDiv, if_neg hx]
  omega

/-- Indices in `[0, 99]` resolve to themselves. -/
lemma pyIdx_of_nonneg (i : ℤ) (h0 : 0 ≤ i) (h1 : i ≤ 99) :
    pyIdx i = some ⟨i.toNat, by omega⟩ := by
  unfold pyIdx
  rw [dif_pos ⟨h0, by omega⟩]

/-- Indices in `[-100, -1]` resolve end-relatively to `index + 100`. -/
lemma pyIdx_of_neg (i : ℤ) (h0 : -100 ≤ i) (h1 : i < 0) :
    pyIdx i = some ⟨(i + 100).toNat, by omega⟩ := by
  unfold pyIdx
  rw [dif_neg (by omega), dif_pos ⟨h0, h1⟩]


/-- An `Except` value is ok exactly when it is an `ok` constructor. -/
lemma except_isOk_iff {α : Type} (e : Except String α) : e.isOk = true ↔ ∃ a, e = Except.ok a := by
  cases e <;> simp [Except.isOk, Except.toBool]

/-- The band loop succeeds when the time index is valid for every band and
both grid indices resolve. -/
lemma procBand_foldlM_ok (vals : String → List ℤ) (ind : ℕ) (row col : ℤ)
    (r c : Fin 100) (hr : pyIdx row = some r) (hc : pyIdx col = some c) :
    ∀ (bands : List String), (∀ b ∈ bands, ind < (vals b).length) → ∀ out,
      (bands.foldlM (procBand vals ind row col) out).isOk = true := by
  intro bands
  induction bands with
  | nil => intro _ out; rfl
  | cons b bs ih =>
    intro h out
    rw [List.foldlM_cons]
    obtain ⟨v, hv⟩ : ∃ v, (vals b)[ind]? = some v :=
      ⟨_, List.getElem?_eq_getElem (h b (List.mem_cons_self b bs))⟩
    have hstep : procBand vals ind row col out b = Except.ok (updGrids out b r c v) := by
      simp [procBand, hv, hr, hc]
    rw [hstep]
    exact ih (fun b0 hb0 => h b0 (List.mem_cons_of_mem b hb0)) _

/-- The record loop succeeds when every record has in-range row and column
and the time index is valid for every band of every record. -/
lemma assemble_foldlM_ok (ind : ℕ) (bands : List String) :
    ∀ (ts : List TSRecord),
      (∀ t ∈ ts, 0 ≤ colOf t ∧ colOf t ≤ 99 ∧ 0 ≤ rowOf t ∧ rowOf t ≤ 99) →
      (∀ t ∈ ts, ∀ b ∈ bands, ind < (t.vals b).length) → ∀ out,
      (ts.foldlM (procRecord ind bands) out).isOk = true := by
  intro ts
  induction ts with
  | nil => intro _ _ out; rfl
  | cons t rest ih =>
    intro hb hi out
    rw [List.foldlM_cons]
    have h1 := hb t (List.mem_cons_self t rest)
    have hr := pyIdx_of_nonneg (rowOf t) h1.2.2.1 h1.2.2.2
    have hc := pyIdx_of_nonneg (colOf t) h1.1 h1.2.1
    have hbandok := procBand_foldlM_ok t.vals ind (rowOf t) (colOf t) _ _ hr hc bands
      (hi t (List.mem_cons_self t rest)) out
    obtain ⟨g, hg⟩ := (except_isOk_iff _).mp hbandok
    have hstep : procRecord ind bands out t = Except.ok g := hg
    rw [hstep]
    exact ih (fun t0 ht0 => hb t0 (List.mem_cons_of_mem t ht0))
      (fun t0 ht0 => hi t0 (List.mem_cons_of_mem t ht0)) g

/-- C10 amended: `assemble` performs no bounds or validity check on the
coordinates.  For every record whose horizontal offset `pixel_x - chip_x`
and vertical offset `chip_y - pixel_y` are multiples of 30 in `[0, 2970]`
(with a valid time index), every write lands at a row and column index in
`[0, 99]` of the 100 by 100 grid and indexing cannot fail.  For a record
whose horizontal offset is negative, strictly greater than -3001 AND at
most -30, `assemble` raises no error: the computed column index is negative
and the value is silently written at the end-relative position
`100 + column` of the row.  (Negative offsets in `[-29, -1]` also raise no
error, but they truncate toward zero to column index 0, a front-relative
write — see the counterexample.) -/
theorem assemble_bounds_spec :
    (∀ (ts : List TSRecord) (ind : ℕ) (bands : List String),
      (∀ t ∈ ts, (30 : ℤ) ∣ (t.x - t.chip_x) ∧ 0 ≤ t.x - t.chip_x ∧ t.x - t.chip_x ≤ 2970 ∧
        (30 : ℤ) ∣ (t.chip_y - t.y) ∧ 0 ≤ t.chip_y - t.y ∧ t.chip_y - t.y ≤ 2970) →
      (∀ t ∈ ts, ∀ b ∈ bands, ind < (t.vals b).length) →
      (∀ t ∈ ts, 0 ≤ colOf t ∧ colOf t ≤ 99 ∧ 0 ≤ rowOf t ∧ rowOf t ≤ 99) ∧
      (assemble ts ind bands).isOk = true) ∧
    (∀ cx cy px py v : ℤ,
      (30 : ℤ) ∣ (cy - py) → 0 ≤ cy - py → cy - py ≤ 2970 →
      -3001 < px - cx → px - cx ≤ -30 →
      colOf ⟨cx, cy, px, py, fun _ => [v]⟩ < 0 ∧
      ∃ g, assemble [⟨cx, cy, px, py, fun _ => [v]⟩] 0 ["B1"] = Except.ok g ∧
        ∀ i j : Fin 100, (i : ℤ) = rowOf ⟨cx, cy, px, py, fun _ => [v]⟩ →
          (j : ℤ) = 100 + colOf ⟨cx, cy, px, py, fun _ => [v]⟩ →
          g "B1" i j = v) := by
  constructor
  · intro ts ind bands hoff hind
    have hbounds : ∀ t ∈ ts, 0 ≤ colOf t ∧ colOf t ≤ 99 ∧ 0 ≤ rowOf t ∧ rowOf t ≤ 99 := by
      intro t ht
      obtain ⟨-, hx0, hx1, -, hy0, hy1⟩ := hoff t ht
      have h1 := pyTruncDiv_nonneg_bounds (t.x - t.chip_x) hx0 hx1
      have h2 := pyTruncDiv_nonneg_bounds (t.chip_y - t.y) hy0 hy1
      exact ⟨h1.1, h1.2, h2.1, h2.2⟩
    exact ⟨hbounds, assemble_foldlM_ok ind bands ts hbounds hind _⟩
  · intro cx cy px py v hdvd h0 h1 hn0 hn1
    have hcb := pyTruncDiv_neg_bounds (px - cx) hn0 hn1
    have hrb := pyTruncDiv_nonneg_bounds (cy - py) h0 h1
    have hcol : colOf ⟨cx, cy, px, py, fun _ => [v]⟩ = pyTruncDiv (px - cx) 30 := rfl
    have hrow : rowOf ⟨cx, cy, px, py, fun _ => [v]⟩ = pyTruncDiv (cy - py) 30 := rfl
    refine ⟨by omega, ?_⟩
    have hr := pyIdx_of_nonneg (rowOf ⟨cx, cy, px, py, fun _ => [v]⟩)
      (by omega) (by omega)
    have hc := pyIdx_of_neg (colOf ⟨cx, cy, px, py, fun _ => [v]⟩)
      (by omega) (by omega)
    refine ⟨updGrids (fun _ _ _ => 0) "B1"
      ⟨(rowOf ⟨cx, cy, px, py, fun _ => [v]⟩).toNat, by omega⟩
      ⟨(colOf ⟨cx, cy, px, py, fun _ => [v]⟩ + 100).toNat, by omega⟩ v, ?_, ?_⟩
    · show (List.foldlM (procRecord 0 ["B1"]) (fun _ _ _ => 0)
        [⟨cx, cy, px, py, fun _ => [v]⟩]) = _
      rw [List.foldlM_cons]
      have hstep : procRecord 0 ["B1"] (fun _ _ _ => 0) ⟨cx, cy, px, py, fun _ => [v]⟩ =
          Except.ok (updGrids (fun _ _ _ => 0) "B1"
            ⟨(rowOf ⟨cx, cy, px, py, fun _ => [v]⟩).toNat, by omega⟩
            ⟨(colOf ⟨cx, cy, px, py, fun _ => [v]⟩ + 100).toNat, by omega⟩ v) := by
        simp [procRecord, procBand, hr, hc]
      rw [hstep]
      rfl
    · intro i j hi hj
      have hieq : i = ⟨(rowOf ⟨cx, cy, px, py, fun _ => [v]⟩).toNat, by omega⟩ := by
        apply Fin.ext
        simp only []
        omega
      have hjeq : j = ⟨(colOf ⟨cx, cy, px, py, fun _ => [v]⟩ + 100).toNat, by omega⟩ := by
        apply Fin.ext
        simp only []
        omega
      rw [hieq, hjeq]
      simp [updGrids]

/-- C10 counterexample: for the record with chip origin (0, 0) and pixel
coordinate (-1, 0) — a negative horizontal offset of -1, strictly greater
than -3001 — `assemble` indeed raises no error, but the computed column is
0, not a negative index, and the value 42 is written at the front cell
(0, 0) of the grid rather than at an end-relative position. -/
theorem assemble_neg_offset_counterexample :
    colOf ⟨0, 0, -1, 0, fun _ => [42]⟩ = 0 ∧
    ¬(colOf ⟨0, 0, -1, 0, fun _ => [42]⟩ < 0) ∧
    (assemble [⟨0, 0, -1, 0, fun _ => [42]⟩] 0 ["B1"]).isOk = true ∧
    cellOf (assemble [⟨0, 0, -1, 0, fun _ => [42]⟩] 0 ["B1"]) "B1" 0 0 = 42 := by
  exact ⟨rfl, by decide, rfl, rfl⟩

/-- Witness for C10: both parts of `assemble_bounds_spec` instantiated at
concrete records (offsets 60 and 90 for the in-range part, horizontal
offset -45 for the negative part), all hypotheses discharged by
computation. -/
theorem assemble_bounds_spec_witness :
    (assemble [⟨0, 0, 60, -90, fun _ => [7]⟩] 0 ["B1"]).isOk = true ∧
    colOf ⟨0, 0, -45, 0, fun _ => [42]⟩ < 0 := by
  constructor
  · exact (assemble_bounds_spec.1 [⟨0, 0, 60, -90, fun _ => [7]⟩] 0 ["B1"]
      (by decide) (by decide)).2
  · exact (assemble_bounds_spec.2 0 0 (-45) 0 42 (by decide) (by decide) (by decide)
      (by decide) (by decide)).1

end DataTools
